import Mathlib

/-
  Verification development for the Tansu offline document-variable
  synchronization engine.

  Shallow embedding of:
    - src/excel_reader.py   (cell access, tabular range reader)
    - src/docx_updater.py   (docx patch engine, settings pass, document pass,
                             repack step, validation)
    - src/word_mac.py       (staleness computation get_stale_variables)

  Modeling conventions:
    - Python str values are Lean String; Python dicts that are only looked up
      are association lists consulted with List.lookup (first binding wins,
      matching dict semantics when keys are unique).
    - openpyxl cell values are modeled by PyValue: absent cells, floats
      (modeled as exact rationals; the floats relevant to the claims, such as
      12.0 and 12.5, are exactly representable), ints and strings. Bools and
      datetimes are not modeled; no claim mentions them.
    - Python whitespace handling (str.strip, regex backslash-s) is modeled on
      the six ASCII whitespace characters.
-/

namespace Tansu

/-- The six ASCII whitespace characters recognized by Python str.strip()
and by the regex class backslash-s (restricted to ASCII). -/
def isPySpace (c : Char) : Bool :=
  c = ' ' || c = '\t' || c = '\n' || c = '\r' || c = Char.ofNat 11 || c = Char.ofNat 12

/-- Python str.strip() on a character list: drop whitespace from both ends. -/
def pyStripList (l : List Char) : List Char :=
  ((l.dropWhile isPySpace).reverse.dropWhile isPySpace).reverse

/-- Python str.strip() on strings. -/
def pyStrip (s : String) : String :=
  (pyStripList s.data).asString

/-- Python str.lower() (ASCII model). -/
def pyLower (s : String) : String :=
  (s.data.map Char.toLower).asString

/-- Python value domain for openpyxl cell contents, as consumed by
src/excel_reader.py. Floats are modeled as exact rationals. -/
inductive PyValue where
  | none
  | float (q : ℚ)
  | int (n : ℤ)
  | str (s : String)
deriving DecidableEq, Repr

/-- Python int() applied to a float: truncation toward zero. -/
def pyTrunc (q : ℚ) : ℤ :=
  if 0 ≤ q then ⌊q⌋ else ⌈q⌉

/-- Least decimal exponent e (searched up to 400, enough for every dyadic
rational a binary float can hold) with q times 10 to the e integral,
together with that integer (q.num times 10 to the e over q.den, exact since
q is in lowest terms and q.den divides 10 to the e). -/
def decDigitsExp (q : ℚ) : Option (ℤ × ℕ) :=
  (List.range 401).findSome? fun e =>
    if (10 ^ e : ℕ) % q.den = 0 then some (q.num * ((10 ^ e : ℕ) / q.den : ℕ), e)
    else Option.none

/-- Render the rational n / 10^e in decimal notation, Python float str style:
integral values keep a trailing ".0" (Python str(12.0) = "12.0"). -/
def renderDec (n : ℤ) (e : ℕ) : String :=
  let s := toString n.natAbs
  let s := if s.length ≤ e then ⟨List.replicate (e + 1 - s.length) '0' ++ s.data⟩ else s
  let intPart : String := ⟨s.data.take (s.data.length - e)⟩
  let fracPart : String := ⟨s.data.drop (s.data.length - e)⟩
  (if n < 0 then "-" else "") ++ (if e = 0 then intPart ++ ".0" else intPart ++ "." ++ fracPart)

/-- Python str() of a float whose exact value is q: the (shortest) decimal
form. Faithful for floats that are exact short decimals, which covers every
numeric value appearing in the claims. -/
def pyFloatStr (q : ℚ) : String :=
  match decDigitsExp q with
  | some (n, e) => renderDec n e
  | Option.none => "<nondecimal>"

/-- Python str() on the modeled value domain. -/
def pyStr : PyValue → String
  | .none => "None"
  | .float q => pyFloatStr q
  | .int n => toString n
  | .str s => s

/-! ## Excel reader (src/excel_reader.py) -/

/-- A worksheet: cell-reference string (e.g. "A5") to value. -/
def Sheet : Type := String → PyValue

/-- A workbook: ordered sheet list, as exposed by wb.sheetnames / wb[name]. -/
structure Workbook where
  sheets : List (String × Sheet)

/-- Errors surfaced by the excel reader functions. -/
inductive XlErr where
  | sheetNotFound
  | badCellRef
deriving DecidableEq, Repr

/-- Value-to-string conversion of read_cell_value (src/excel_reader.py lines
130-140): empty cell reads as "", an integral float drops the decimal point,
any other value is stringified (no strip here). -/
def cellToStr : PyValue → String
  | .none => ""
  | .float q => if (pyTrunc q : ℚ) = q then toString (pyTrunc q) else pyFloatStr q
  | v => pyStr v

/-- read_cell_value (src/excel_reader.py lines 105-140): checks that the sheet
exists among wb.sheetnames (ValueError otherwise), then converts the cell
value. The file-existence check is outside the model (the workbook argument
stands for an opened existing file). -/
def read_cell_value (wb : Workbook) (sheet_name cell_ref : String) : Except XlErr String :=
  match wb.sheets.lookup sheet_name with
  | Option.none => .error .sheetNotFound
  | Option.some ws => .ok (cellToStr (ws cell_ref))

/-- col_to_num from read_range_as_variables: base-26 column letters, A = 1. -/
def col_to_num (s : String) : ℕ :=
  s.data.foldl (fun r c => r * 26 + (c.toNat - 'A'.toNat + 1)) 0

/-- num_to_col helper loop (divmod(num - 1, 26)). The first argument is
recursion fuel; the loop value strictly decreases, so fuel equal to the
initial value is always enough. -/
def num_to_col_go : ℕ → ℕ → List Char → List Char
  | 0, _, acc => acc
  | _ + 1, 0, acc => acc
  | fuel + 1, n + 1, acc => num_to_col_go fuel (n / 26) (Char.ofNat (65 + n % 26) :: acc)

/-- num_to_col from read_range_as_variables. -/
def num_to_col (n : ℕ) : String :=
  (num_to_col_go n n []).asString

/-- Parse of the start cell via re.match on start_cell.upper() with pattern
letters-then-digits: leading letter run, then digit run, both nonempty;
any trailing characters are ignored (re.match is not fullmatch). -/
def parseStartCell (s : String) : Option (String × ℕ) :=
  let u := s.data.map Char.toUpper
  let letters := u.takeWhile fun c => 'A' ≤ c ∧ c ≤ 'Z'
  let rest := u.dropWhile fun c => 'A' ≤ c ∧ c ≤ 'Z'
  let digits := rest.takeWhile fun c => '0' ≤ c ∧ c ≤ '9'
  if letters = [] ∨ digits = [] then Option.none
  else some (letters.asString, digits.foldl (fun n c => n * 10 + (c.toNat - '0'.toNat)) 0)

/-- The emptiness test on the name cell (src/excel_reader.py line 305):
value is None, or stringifies to whitespace only. -/
def nameIsEmpty (v : PyValue) : Bool :=
  v == PyValue.none || pyStrip (pyStr v) == ""

/-- Name normalization (line 314): strip, then replace spaces by underscores. -/
def normalizeName (s : String) : String :=
  ((pyStrip s).data.map fun c => if c = ' ' then '_' else c).asString

/-- Value-cell conversion (lines 317-327): None yields "", an integral float
drops the decimal point, any other value is stringified and stripped. -/
def valueCellStr : PyValue → String
  | .none => ""
  | .float q => if (pyTrunc q : ℚ) = q then toString (pyTrunc q) else pyFloatStr q
  | v => pyStrip (pyStr v)

/-- Unit-cell conversion (lines 330-335): None yields "", anything else is
stringified and stripped (floats included, with no integral normalization). -/
def unitCellStr : PyValue → String
  | .none => ""
  | v => pyStrip (pyStr v)

/-- One row record produced by read_range_as_variables. -/
structure RangeRow where
  name : String
  value : String
  unit : String
  row : ℕ
deriving DecidableEq, Repr

/-- The accepted-row constructor of the scan loop body (lines 314-342). -/
def mkRangeRow (ws : Sheet) (name_col value_col unit_col : String) (row : ℕ) : RangeRow :=
  { name := normalizeName (pyStr (ws (name_col ++ toString row)))
    value := valueCellStr (ws (value_col ++ toString row))
    unit := unitCellStr (ws (unit_col ++ toString row))
    row := row }

/-- The while-True scan loop of read_range_as_variables (lines 294-348),
with the mutable state (row, empty_rows, variables) explicit. The fuel
argument only bounds recursion depth; the loop needs at most 5 (skips)
+ 1001 (captures) + 1 iterations, so any fuel of at least 1008 makes the
fuel branch unreachable from the entry point below. -/
def scanLoop (ws : Sheet) (name_col value_col unit_col : String) (start_row : ℕ) :
    ℕ → ℕ → ℕ → List RangeRow → List RangeRow
  | fuel, row, empty_rows, acc =>
    if nameIsEmpty (ws (name_col ++ toString row)) then
      if acc = [] ∧ empty_rows < 5 then
        match fuel with
        | 0 => acc
        | fuel + 1 => scanLoop ws name_col value_col unit_col start_row fuel (row + 1) (empty_rows + 1) acc
      else acc
    else
      let acc2 := acc ++ [mkRangeRow ws name_col value_col unit_col row]
      if start_row + 1000 < row + 1 then acc2
      else
        match fuel with
        | 0 => acc2
        | fuel + 1 => scanLoop ws name_col value_col unit_col start_row fuel (row + 1) empty_rows acc2

/-- read_range_as_variables (src/excel_reader.py lines 241-351): sheet
lookup, start-cell parse, column derivation, then the scan loop starting at
the start row with no rows yet captured. -/
def read_range_as_variables (wb : Workbook) (sheet_name start_cell : String) :
    Except XlErr (List RangeRow) :=
  match wb.sheets.lookup sheet_name with
  | Option.none => .error .sheetNotFound
  | Option.some ws =>
    match parseStartCell start_cell with
    | Option.none => .error .badCellRef
    | Option.some (start_col, start_row) =>
      let cn := col_to_num start_col
      .ok (scanLoop ws start_col (num_to_col (cn + 1)) (num_to_col (cn + 2))
            start_row 2000 start_row 0 [])

/-! ## DOCVARIABLE instruction parsing (src/docx_updater.py lines 90-92,
128-130): the regex DOCVARIABLE backslash-s-plus captures the following
maximal nonblank run; re.search takes the leftmost position at which the
whole pattern matches. -/

/-- Attempt the regex match at the current position: the literal keyword,
at least one whitespace character, then a nonempty nonblank token. -/
def matchAt (l : List Char) : Option (List Char) :=
  if l.take 11 = "DOCVARIABLE".data then
    match l.drop 11 with
    | c :: cs =>
      if isPySpace c then
        let tok := (cs.dropWhile isPySpace).takeWhile fun d => !isPySpace d
        if tok = [] then Option.none else some tok
      else Option.none
    | [] => Option.none
  else Option.none

/-- re.search of the DOCVARIABLE pattern: try each position left to right. -/
def searchDocvar : List Char → Option (List Char)
  | [] => Option.none
  | c :: cs =>
    match matchAt (c :: cs) with
    | some tok => some tok
    | Option.none => searchDocvar cs

/-- Python strip of quotation marks (the .strip of match.group(1)):
removes every leading and trailing double-quote character. -/
def stripQuotesList (l : List Char) : List Char :=
  ((l.dropWhile fun c => c == '"').reverse.dropWhile fun c => c == '"').reverse

/-- Variable-name extraction shared by the simple-field and complex-field
passes: regex search, then strip surrounding quotes from the captured token. -/
def extract_var_name (instr : String) : Option String :=
  (searchDocvar instr.data).map fun tok => (stripQuotesList tok).asString

/-! ## Document XML model (src/docx_updater.py lines 80-137)

An element tree: tag (namespace-local name, the w namespace being implicit
throughout, exactly as the source restricts itself to it), attributes
(local names, same convention), the element text, and child elements. -/

inductive Xml where
  | elem (tag : String) (attrs : List (String × String)) (text : Option String) (children : List Xml)
deriving Repr

/-- Text effect of the simple-field pass at one element: inside a matched
fldSimple (pending value present), every t element gets the pending value. -/
def simpleText (pending : Option String) (tag : String) (text : Option String) : Option String :=
  if tag = "t" then
    match pending with
    | some v => some v
    | Option.none => text
  else text

/-- Pending-value update of the simple-field pass at one element: a
fldSimple whose instruction names an updated variable installs that value
for its whole subtree; everything else passes the pending value through. -/
def simplePending (vars : List (String × String)) (pending : Option String) (tag : String)
    (attrs : List (String × String)) : Option String :=
  if tag = "fldSimple" then
    match extract_var_name ((attrs.lookup "instr").getD "") with
    | some nm =>
      match vars.lookup nm with
      | some v => some v
      | Option.none => pending
    | Option.none => pending
  else pending

mutual
/-- The simple-field pass (lines 86-96), fused over the tree: the source
iterates the found fldSimple elements in document order, and for each one
whose instruction names an updated variable overwrites the text of every
descendant t element; since outer elements are processed before nested
ones, the value of the innermost enclosing matched fldSimple wins, which
is the pending argument here. -/
def upd_simple_go (vars : List (String × String)) : Option String → Xml → Xml
  | pending, .elem tag attrs text children =>
    .elem tag attrs (simpleText pending tag text)
      (upd_simple_list vars (simplePending vars pending tag attrs) children)

/-- The simple-field pass over a sibling list. -/
def upd_simple_list (vars : List (String × String)) : Option String → List Xml → List Xml
  | _, [] => []
  | pending, x :: xs => upd_simple_go vars pending x :: upd_simple_list vars pending xs
end

/-- Entry point of the simple-field pass over the document root. -/
def upd_simple (vars : List (String × String)) (x : Xml) : Xml :=
  upd_simple_go vars Option.none x

/-- State of the complex-field state machine (lines 106-108). -/
structure FState where
  in_field : Bool
  after_sep : Bool
  cur : Option String
deriving DecidableEq, Repr

/-- The initial state of the complex-field pass. -/
def fldInit : FState := ⟨false, false, Option.none⟩

/-- One visited element of the complex-field pass (lines 110-134): returns
the updated state and the new text of this element. fldChar markers drive
the state; an instruction text inside a field records the extracted name
(left unchanged when the regex does not match); a text run after the
separator whose recorded name is truthy and updated is overwritten. -/
def fld_step (vars : List (String × String)) (s : FState) (tag : String)
    (attrs : List (String × String)) (text : Option String) : FState × Option String :=
  if tag = "fldChar" then
    let ft := (attrs.lookup "fldCharType").getD ""
    if ft = "begin" then (⟨true, false, Option.none⟩, text)
    else if ft = "separate" then (⟨s.in_field, true, s.cur⟩, text)
    else if ft = "end" then (⟨false, false, Option.none⟩, text)
    else (s, text)
  else if tag = "instrText" ∧ s.in_field = true then
    match extract_var_name ((text.getD "")) with
    | some nm => (⟨s.in_field, s.after_sep, some nm⟩, text)
    | Option.none => (s, text)
  else if tag = "t" ∧ s.in_field = true ∧ s.after_sep = true then
    match s.cur with
    | some nm =>
      if nm ≠ "" then
        match vars.lookup nm with
        | some v => (s, some v)
        | Option.none => (s, text)
      else (s, text)
    | Option.none => (s, text)
  else (s, text)

mutual
/-- The complex-field pass: root.iter() visits elements in document order
(preorder), threading the state machine and rewriting texts in place. -/
def fld_scan (vars : List (String × String)) : FState → Xml → FState × Xml
  | s, .elem tag attrs text children =>
    let p := fld_step vars s tag attrs text
    let q := fld_scan_list vars p.1 children
    (q.1, .elem tag attrs p.2 q.2)

/-- Document-order traversal of a sibling list for the complex-field pass. -/
def fld_scan_list (vars : List (String × String)) : FState → List Xml → FState × List Xml
  | s, [] => (s, [])
  | s, x :: xs =>
    let p := fld_scan vars s x
    let q := fld_scan_list vars p.1 xs
    (q.1, p.2 :: q.2)
end

/-- _update_document_xml (lines 80-137): the simple-field pass runs first
over the whole tree, then the complex-field state machine scans the
resulting tree from the initial state. -/
def update_document_xml (vars : List (String × String)) (x : Xml) : Xml :=
  (fld_scan vars fldInit (upd_simple vars x)).2

/-! ## Settings part (src/docx_updater.py lines 65-77) -/

/-- One w:docVar element of settings.xml: name and val attributes. -/
structure DocVar where
  name : String
  val : String
deriving DecidableEq, Repr

/-- _update_settings_xml (lines 65-77), on the docVar sequence of the
settings part: every definition whose name is a key of the update map gets
the new value; all others are untouched; no element is added or removed. -/
def upd_settings (vars : List (String × String)) (s : List DocVar) : List DocVar :=
  s.map fun d =>
    match vars.lookup d.name with
    | some v => ⟨d.name, v⟩
    | Option.none => d

/-! ## Archive model (src/docx_updater.py lines 44-62 and 140-152) -/

/-- Compression method recorded for a zip entry. -/
inductive ZipMethod where
  | stored
  | deflated
deriving DecidableEq, Repr

/-- Content of one archive entry: the settings part (its docVar sequence),
the document part (its element tree), or any other entry as raw bytes. -/
inductive EntryContent where
  | settingsPart (dvs : List DocVar)
  | documentPart (x : Xml)
  | blob (bs : List ℕ)
deriving Repr

/-- One archive entry: internal path, content, compression method and
timestamp metadata. -/
structure ZipEntry where
  ename : String
  content : EntryContent
  method : ZipMethod
  mtime : ℕ
deriving Repr

/-- The per-entry effect of update_docx_variables (lines 44-60): the two XML
parts are parsed, patched and re-serialized; every other extracted file is
passed through unchanged. -/
def patchEntryContent (vars : List (String × String)) : EntryContent → EntryContent
  | .settingsPart dvs => .settingsPart (upd_settings vars dvs)
  | .documentPart x => .documentPart (update_document_xml vars x)
  | .blob bs => .blob bs

/-- The repack effect on one entry (lines 147-152): zipfile.ZipFile(path, w,
ZIP_DEFLATED) writes every extracted file deflated, with the fresh extraction
timestamp, regardless of the original method and timestamp. -/
def repackEntry (vars : List (String × String)) (now : ℕ) (e : ZipEntry) : ZipEntry :=
  { ename := e.ename, content := patchEntryContent vars e.content, method := .deflated, mtime := now }

/-- The whole-archive effect of the extract, patch and repack cycle of
update_docx_variables on the entry list. -/
def update_docx_archive (vars : List (String × String)) (es : List ZipEntry) (now : ℕ) :
    List ZipEntry :=
  es.map (repackEntry vars now)

/-- Byte-identity modulo archive timestamp metadata: same entry paths,
contents and compression methods, timestamps free. -/
def eqModTimestamps (a b : List ZipEntry) : Prop :=
  a.map (fun e => (e.ename, e.content, e.method)) = b.map (fun e => (e.ename, e.content, e.method))

/-! ## The repack step as a sequence of filesystem operations
(_repack_docx, lines 140-152): remove the previous file at the output path,
open a fresh archive there, then append the entries one by one. A failure
partway (disk full) stops the sequence after a prefix of the steps. -/

/-- Primitive filesystem steps of _repack_docx at the output path. -/
inductive RepackStep where
  | removeOld
  | createNew
  | writeEntry (e : ZipEntry)
deriving Repr

/-- The step sequence _repack_docx executes: os.remove first (lines
143-144), then the zip is created and each file is appended (lines
147-152), deflated with the extraction-time timestamp. -/
def repack_steps (vars : List (String × String)) (es : List ZipEntry) (now : ℕ) :
    List RepackStep :=
  .removeOld :: .createNew :: (es.map fun e => .writeEntry (repackEntry vars now e))

/-- Effect of one step on the file visible at the output path (none means no
file at that path). -/
def repack_apply : Option (List ZipEntry) → RepackStep → Option (List ZipEntry)
  | _, .removeOld => Option.none
  | _, .createNew => some []
  | st, .writeEntry e =>
    match st with
    | some l => some (l ++ [e])
    | Option.none => Option.none

/-- File visible at the output path after executing a list of steps. -/
def run_repack (init : Option (List ZipEntry)) (steps : List RepackStep) :
    Option (List ZipEntry) :=
  steps.foldl repack_apply init

/-! ## update_docx_variables validation and backup (src/docx_updater.py
lines 20-62) -/

/-- Errors raised by update_docx_variables before any mutation. -/
inductive DocxError where
  | fileNotFound
  | valueError
deriving DecidableEq, Repr

/-- A filesystem: paths to archive contents (none means absent). -/
def FileSys : Type := String → Option (List ZipEntry)

/-- update_docx_variables (lines 20-62) at the filesystem level: missing
path raises FileNotFoundError (line 32); a path not ending in .docx after
lowercasing raises ValueError (line 35); both before the backup copy. Then
the .bak sibling is written when requested, and the patched repacked archive
replaces the target. The returned filesystem is the state after the call;
the error branches return it unchanged. -/
def update_docx_variables (fs : FileSys) (docx_path : String)
    (updates : List (String × String)) (backup : Bool) (now : ℕ) :
    FileSys × Except DocxError Bool :=
  match fs docx_path with
  | Option.none => (fs, .error .fileNotFound)
  | some f =>
    if ((pyLower docx_path).data.reverse.take 5 = ".docx".data.reverse) then
      let fs1 : FileSys := fun p =>
        if backup ∧ p = docx_path ++ ".bak" then some f else fs p
      let fs2 : FileSys := fun p =>
        if p = docx_path then some (update_docx_archive updates f now) else fs1 p
      (fs2, .ok true)
    else (fs, .error .valueError)

/-! ## Staleness computation (src/word_mac.py lines 391-415) -/

/-- get_doc_variable_value (src/word_mac.py lines 202-224): the AppleScript
returns the value of the named document variable, or the empty string when
it does not exist; run_applescript strips the captured stdout (line 54);
the Python wrapper then maps a falsy (empty) result to None (line 221). -/
def get_doc_variable_value (doc : List (String × String)) (name : String) : Option String :=
  let raw :=
    match doc.lookup name with
    | some v => v
    | Option.none => ""
  let out := pyStrip raw
  if out = "" then Option.none else some out

/-- get_stale_variables (src/word_mac.py lines 391-415): nothing when no
active document; otherwise iterate the database map in order, read each
name from the document, and record (name, (doc value, db value)) whenever
the document reports a value and it differs. -/
def get_stale_variables (active : Bool) (doc : List (String × String))
    (db_variables : List (String × String)) : List (String × String × String) :=
  if active = false then []
  else
    db_variables.foldl
      (fun stale nv =>
        match get_doc_variable_value doc nv.1 with
        | some doc_value => if doc_value ≠ nv.2 then stale ++ [(nv.1, doc_value, nv.2)] else stale
        | Option.none => stale)
      []

/-! ## Example fixtures used in concrete instances -/

/-- Example worksheet of the range-scan property: Name1/10/cm at row 5,
Name2/20/(empty) at row 6, row 7 empty, Name3/30/kg at row 8. -/
def exSheet : Sheet := fun ref =>
  if ref = "A5" then .str "Name1"
  else if ref = "B5" then .int 10
  else if ref = "C5" then .str "cm"
  else if ref = "A6" then .str "Name2"
  else if ref = "B6" then .int 20
  else if ref = "A8" then .str "Name3"
  else if ref = "B8" then .int 30
  else if ref = "C8" then .str "kg"
  else .none

/-- Example workbook holding the example worksheet as sheet S. -/
def exWb : Workbook := ⟨[("S", exSheet)]⟩

/-- Example workbook for the cell-read property: A1 holds 12.0, A2 holds
12.5, A3 is empty. -/
def exWb2 : Workbook :=
  ⟨[("S", fun r => if r = "A1" then .float (mkRat 12 1)
                   else if r = "A2" then .float (mkRat 25 2)
                   else .none)]⟩

/-- Schematic document body for the selective-update property: a heading
paragraph, a simple field displaying A, a complex field displaying B, a
simple field displaying C, and a trailing plain paragraph. The parameters
da, db, dc are the current display texts and hx, hy the unrelated texts. -/
def sampleBody (A B C da db dc hx hy : String) : Xml :=
  .elem "document" [] Option.none [
    .elem "body" [] Option.none [
      .elem "p" [] Option.none [.elem "r" [] Option.none [.elem "t" [] (some hx) []]],
      .elem "p" [] Option.none [
        .elem "fldSimple" [("instr", "DOCVARIABLE " ++ A)] Option.none [
          .elem "r" [] Option.none [.elem "t" [] (some da) []]]],
      .elem "p" [] Option.none [
        .elem "r" [] Option.none [.elem "fldChar" [("fldCharType", "begin")] Option.none []],
        .elem "r" [] Option.none [.elem "instrText" [] (some ("DOCVARIABLE " ++ B)) []],
        .elem "r" [] Option.none [.elem "fldChar" [("fldCharType", "separate")] Option.none []],
        .elem "r" [] Option.none [.elem "t" [] (some db) []],
        .elem "r" [] Option.none [.elem "fldChar" [("fldCharType", "end")] Option.none []]],
      .elem "p" [] Option.none [
        .elem "fldSimple" [("instr", "DOCVARIABLE " ++ C)] Option.none [
          .elem "r" [] Option.none [.elem "t" [] (some dc) []]]],
      .elem "p" [] Option.none [.elem "r" [] Option.none [.elem "t" [] (some hy) []]]]]

/-! ## Helper lemmas -/

lemma lookup_eq_none_of_not_mem {α : Type} (l : List (String × α)) (a : String)
    (h : a ∉ l.map Prod.fst) : l.lookup a = Option.none := by
  induction l with
  | nil => rfl
  | cons p t ih =>
    simp only [List.map_cons, List.mem_cons] at h
    push_neg at h
    have hne : (a == p.1) = false := beq_eq_false_iff_ne.mpr h.1
    simp [List.lookup, hne, ih h.2]

lemma asString_eq_empty_iff (l : List Char) : l.asString = "" ↔ l = [] := by
  constructor
  · intro h
    have := congrArg String.data h
    simpa [List.asString] using this
  · intro h; simp [h, List.asString]

lemma normalizeName_facts (s : String) (h : pyStrip s ≠ "") :
    normalizeName s ≠ "" ∧ ' ' ∉ (normalizeName s).data := by
  constructor
  · intro hc
    rw [normalizeName, asString_eq_empty_iff, List.map_eq_nil_iff] at hc
    exact h (by rw [pyStrip] at h ⊢; rw [show (pyStrip s).data = pyStripList s.data from rfl] at hc; rw [hc]; rfl)
  · rw [normalizeName]
    intro hc
    rw [show ((pyStrip s).data.map fun c => if c = ' ' then '_' else c).asString.data
          = (pyStrip s).data.map fun c => if c = ' ' then '_' else c from rfl] at hc
    rcases List.mem_map.mp hc with ⟨x, _, hfx⟩
    by_cases hx : x = ' ' <;> simp [hx] at hfx

lemma nameIsEmpty_false_strip (v : PyValue) (h : nameIsEmpty v = false) :
    pyStrip (pyStr v) ≠ "" := by
  rw [nameIsEmpty, Bool.or_eq_false_iff] at h
  exact fun hc => by simp [hc] at h

lemma mkRangeRow_row (ws : Sheet) (nc vc uc : String) (row : ℕ) :
    (mkRangeRow ws nc vc uc row).row = row := rfl

lemma mkRangeRow_name_facts (ws : Sheet) (nc vc uc : String) (row : ℕ)
    (h : nameIsEmpty (ws (nc ++ toString row)) = false) :
    (mkRangeRow ws nc vc uc row).name ≠ "" ∧ ' ' ∉ (mkRangeRow ws nc vc uc row).name.data :=
  normalizeName_facts _ (nameIsEmpty_false_strip _ h)

lemma scanLoop_unfold (ws : Sheet) (nc vc uc : String) (sr fuel row e : ℕ)
    (acc : List RangeRow) :
    scanLoop ws nc vc uc sr fuel row e acc =
      if nameIsEmpty (ws (nc ++ toString row)) then
        if acc = [] ∧ e < 5 then
          match fuel with
          | 0 => acc
          | fuel + 1 => scanLoop ws nc vc uc sr fuel (row + 1) (e + 1) acc
        else acc
      else
        let acc2 := acc ++ [mkRangeRow ws nc vc uc row]
        if sr + 1000 < row + 1 then acc2
        else
          match fuel with
          | 0 => acc2
          | fuel + 1 => scanLoop ws nc vc uc sr fuel (row + 1) e acc2 := by
  rw [scanLoop.eq_def]

lemma scanLoop_stop (ws : Sheet) (nc vc uc : String) (sr fuel row e : ℕ)
    (acc : List RangeRow) (hacc : acc ≠ [])
    (hempty : nameIsEmpty (ws (nc ++ toString row)) = true) :
    scanLoop ws nc vc uc sr fuel row e acc = acc := by
  rw [scanLoop_unfold]
  simp [hempty, hacc]

lemma scanLoop_skip (ws : Sheet) (nc vc uc : String) (sr : ℕ) :
    ∀ fuel row e, (∀ i, i ≤ 5 - e → nameIsEmpty (ws (nc ++ toString (row + i))) = true) →
      scanLoop ws nc vc uc sr fuel row e [] = [] := by
  intro fuel
  induction fuel with
  | zero =>
    intro row e h
    have h0 := h 0 (Nat.zero_le _)
    rw [Nat.add_zero] at h0
    rw [scanLoop_unfold]
    simp [h0]
  | succ n ih =>
    intro row e h
    have h0 := h 0 (Nat.zero_le _)
    rw [Nat.add_zero] at h0
    rw [scanLoop_unfold]
    by_cases he : e < 5
    · simp only [h0, if_true, true_and, he, if_pos]
      apply ih
      intro i hi
      have := h (i + 1) (by omega)
      rwa [show row + (i + 1) = row + 1 + i by omega] at this
    · simp [h0, he]

lemma scanLoop_inv (ws : Sheet) (nc vc uc : String) (sr : ℕ) :
    ∀ (fuel row e : ℕ) (acc : List RangeRow),
      acc.Pairwise (fun a b => a.row < b.row) →
      (∀ r ∈ acc, r.row < row) →
      (∀ r ∈ acc, sr ≤ r.row ∧ r.row ≤ sr + 1000 ∧ r.name ≠ "" ∧ ' ' ∉ r.name.data) →
      (acc = [] → row + (5 - e) ≤ sr + 1000) →
      (acc ≠ [] → row ≤ sr + 1000) →
      sr ≤ row →
      (scanLoop ws nc vc uc sr fuel row e acc).Pairwise (fun a b => a.row < b.row) ∧
        ∀ r ∈ scanLoop ws nc vc uc sr fuel row e acc,
          sr ≤ r.row ∧ r.row ≤ sr + 1000 ∧ r.name ≠ "" ∧ ' ' ∉ r.name.data := by
  intro fuel
  induction fuel with
  | zero =>
    intro row e acc hpw hlt hmem hemp hne hsr
    rw [scanLoop_unfold]
    by_cases h0 : nameIsEmpty (ws (nc ++ toString row)) = true
    · by_cases hc : acc = [] ∧ e < 5
      · obtain ⟨ha, he5⟩ := hc
        subst ha
        simp [h0, he5]
      · rw [if_pos h0, if_neg hc]
        exact ⟨hpw, hmem⟩
    · rw [Bool.not_eq_true] at h0
      have hrow : row ≤ sr + 1000 := by
        by_cases ha : acc = []
        · have := hemp ha; omega
        · exact hne ha
      have hnames := mkRangeRow_name_facts ws nc vc uc row h0
      have hstep : ((acc ++ [mkRangeRow ws nc vc uc row]).Pairwise (fun a b => a.row < b.row)) ∧
          ∀ r ∈ acc ++ [mkRangeRow ws nc vc uc row],
            sr ≤ r.row ∧ r.row ≤ sr + 1000 ∧ r.name ≠ "" ∧ ' ' ∉ r.name.data := by
        constructor
        · rw [List.pairwise_append]
          refine ⟨hpw, List.pairwise_singleton _ _, ?_⟩
          intro a ha b hb
          rw [List.mem_singleton] at hb
          rw [hb, mkRangeRow_row]
          exact hlt a ha
        · intro r hr
          rcases List.mem_append.mp hr with hr | hr
          · exact hmem r hr
          · rw [List.mem_singleton] at hr
            subst hr
            exact ⟨by rw [mkRangeRow_row]; exact hsr, by rw [mkRangeRow_row]; exact hrow,
              hnames.1, hnames.2⟩
      simp only [h0, Bool.false_eq_true, if_false]
      split <;> exact hstep
  | succ n ih =>
    intro row e acc hpw hlt hmem hemp hne hsr
    rw [scanLoop_unfold]
    by_cases h0 : nameIsEmpty (ws (nc ++ toString row)) = true
    · by_cases hc : acc = [] ∧ e < 5
      · obtain ⟨ha, he5⟩ := hc
        subst ha
        have hemp5 := hemp rfl
        rw [if_pos h0, if_pos (And.intro rfl he5)]
        apply ih
        · exact List.Pairwise.nil
        · intro r hr; exact absurd hr (List.not_mem_nil r)
        · intro r hr; exact absurd hr (List.not_mem_nil r)
        · intro _; omega
        · intro hx; exact absurd rfl hx
        · omega
      · rw [if_pos h0, if_neg hc]
        exact ⟨hpw, hmem⟩
    · rw [Bool.not_eq_true] at h0
      have hrow : row ≤ sr + 1000 := by
        by_cases ha : acc = []
        · have := hemp ha; omega
        · exact hne ha
      have hnames := mkRangeRow_name_facts ws nc vc uc row h0
      have hpw2 : (acc ++ [mkRangeRow ws nc vc uc row]).Pairwise (fun a b => a.row < b.row) := by
        rw [List.pairwise_append]
        refine ⟨hpw, List.pairwise_singleton _ _, ?_⟩
        intro a ha b hb
        rw [List.mem_singleton] at hb
        rw [hb, mkRangeRow_row]
        exact hlt a ha
      have hmem2 : ∀ r ∈ acc ++ [mkRangeRow ws nc vc uc row],
          sr ≤ r.row ∧ r.row ≤ sr + 1000 ∧ r.name ≠ "" ∧ ' ' ∉ r.name.data := by
        intro r hr
        rcases List.mem_append.mp hr with hr | hr
        · exact hmem r hr
        · rw [List.mem_singleton] at hr
          subst hr
          exact ⟨by rw [mkRangeRow_row]; exact hsr, by rw [mkRangeRow_row]; exact hrow,
            hnames.1, hnames.2⟩
      simp only [h0, Bool.false_eq_true, if_false]
      by_cases hg : sr + 1000 < row + 1
      · simp only [hg, if_true]
        exact ⟨hpw2, hmem2⟩
      · simp only [hg, if_false]
        apply ih
        · exact hpw2
        · intro r hr
          rcases List.mem_append.mp hr with hr | hr
          · exact Nat.lt_succ_of_lt (hlt r hr)
          · rw [List.mem_singleton] at hr; rw [hr, mkRangeRow_row]; omega
        · exact hmem2
        · intro hx; simp at hx
        · intro _; omega
        · omega

/-! ## Claim theorems -/

/-- C8: for an opened workbook, read_cell_value returns the empty string for
an empty cell, the integer rendering without a decimal point for an integral
float (12.0 reads as "12"), the natural decimal form for a non-integral
float (12.5 reads as "12.5"), and an error when the sheet name is not among
the workbook sheet names. -/
theorem C8_read_cell_value :
    (∀ (wb : Workbook) (sheet cell : String) (ws : Sheet),
        wb.sheets.lookup sheet = some ws →
        (ws cell = .none → read_cell_value wb sheet cell = .ok "") ∧
        (∀ q : ℚ, ws cell = .float q →
          ((pyTrunc q : ℚ) = q → read_cell_value wb sheet cell = .ok (toString (pyTrunc q))) ∧
          ((pyTrunc q : ℚ) ≠ q → read_cell_value wb sheet cell = .ok (pyFloatStr q))) ∧
        (ws cell = .float (mkRat 12 1) → read_cell_value wb sheet cell = .ok "12") ∧
        (ws cell = .float (mkRat 25 2) → read_cell_value wb sheet cell = .ok "12.5")) ∧
    (∀ (wb : Workbook) (sheet cell : String),
        sheet ∉ wb.sheets.map Prod.fst →
        read_cell_value wb sheet cell = .error .sheetNotFound) := by
  constructor
  · intro wb sheet cell ws hws
    have hred : read_cell_value wb sheet cell = Except.ok (cellToStr (ws cell)) := by
      rw [read_cell_value, hws]
    refine ⟨?_, ?_, ?_, ?_⟩
    · intro hcell
      rw [hred, hcell]
      rfl
    · intro q hcell
      constructor
      · intro hint
        rw [hred, hcell]
        simp [cellToStr, hint]
      · intro hint
        rw [hred, hcell]
        simp [cellToStr, hint]
    · intro hcell
      rw [hred, hcell]
      rfl
    · intro hcell
      rw [hred, hcell]
      rfl
  · intro wb sheet cell habs
    rw [read_cell_value, lookup_eq_none_of_not_mem _ _ habs]

/-- C8 witness: the four behaviors at the concrete example workbook. -/
theorem C8_read_cell_value_witness :
    read_cell_value exWb2 "S" "A1" = .ok "12" ∧
    read_cell_value exWb2 "S" "A2" = .ok "12.5" ∧
    read_cell_value exWb2 "S" "A3" = .ok "" ∧
    read_cell_value exWb2 "T" "A1" = .error .sheetNotFound :=
  ⟨(C8_read_cell_value.1 exWb2 "S" "A1" _ rfl).2.2.1 (by decide),
   (C8_read_cell_value.1 exWb2 "S" "A2" _ rfl).2.2.2 (by decide),
   (C8_read_cell_value.1 exWb2 "S" "A3" _ rfl).1 (by decide),
   C8_read_cell_value.2 exWb2 "T" "A1" (by decide)⟩

/-- C6: the range scan skips up to 5 empty-name rows before the first
captured row (six consecutive leading empties yield nothing), stops at the
first empty-name row once at least one row is captured, never returns a row
more than 1000 rows past the start row; on the example sheet (Name1 at row
5, Name2 at row 6, row 7 empty, Name3 at row 8) starting at row 5 or at
row 3 yields exactly the Name1 and Name2 rows. -/
theorem C6_range_scan_rules :
    (read_range_as_variables exWb "S" "A5" =
      .ok [⟨"Name1", "10", "cm", 5⟩, ⟨"Name2", "20", "", 6⟩]) ∧
    (read_range_as_variables exWb "S" "A3" =
      .ok [⟨"Name1", "10", "cm", 5⟩, ⟨"Name2", "20", "", 6⟩]) ∧
    (∀ (ws : Sheet) (nc vc uc : String) (sr : ℕ),
      (∀ i, i ≤ 5 → nameIsEmpty (ws (nc ++ toString (sr + i))) = true) →
      scanLoop ws nc vc uc sr 2000 sr 0 [] = []) ∧
    (∀ (ws : Sheet) (nc vc uc : String) (sr fuel row e : ℕ) (acc : List RangeRow),
      acc ≠ [] → nameIsEmpty (ws (nc ++ toString row)) = true →
      scanLoop ws nc vc uc sr fuel row e acc = acc) ∧
    (∀ (ws : Sheet) (nc vc uc : String) (sr : ℕ) (r : RangeRow),
      r ∈ scanLoop ws nc vc uc sr 2000 sr 0 [] → sr ≤ r.row ∧ r.row ≤ sr + 1000) := by
  refine ⟨rfl, rfl, ?_, ?_, ?_⟩
  · intro ws nc vc uc sr h
    exact scanLoop_skip ws nc vc uc sr 2000 sr 0 h
  · intro ws nc vc uc sr fuel row e acc hacc hempty
    exact scanLoop_stop ws nc vc uc sr fuel row e acc hacc hempty
  · intro ws nc vc uc sr r hr
    have := (scanLoop_inv ws nc vc uc sr 2000 sr 0 []
      (List.Pairwise.nil) (by simp) (by simp) (fun _ => by omega)
      (fun h => absurd rfl h) (le_refl sr)).2 r hr
    exact ⟨this.1, this.2.1⟩

/-- C6 witness: the stop rule applied at a concrete mid-scan state of the
example sheet (row 7 is empty and one row is already captured). -/
theorem C6_range_scan_rules_witness :
    scanLoop exSheet "A" "B" "C" 5 1993 7 0 [⟨"Name1", "10", "cm", 5⟩, ⟨"Name2", "20", "", 6⟩] =
      [⟨"Name1", "10", "cm", 5⟩, ⟨"Name2", "20", "", 6⟩] :=
  C6_range_scan_rules.2.2.2.1 exSheet "A" "B" "C" 5 1993 7 0 _ (by decide) (by decide)

/-- C10: every row returned by read_range_as_variables has a nonempty name
containing no space character, and the source rows of successive entries
are strictly increasing. -/
theorem C10_row_invariants :
    ∀ (wb : Workbook) (sheet cell : String) (l : List RangeRow),
      read_range_as_variables wb sheet cell = .ok l →
      (∀ r ∈ l, r.name ≠ "" ∧ ' ' ∉ r.name.data) ∧
        l.Pairwise (fun a b => a.row < b.row) := by
  intro wb sheet cell l h
  rw [read_range_as_variables] at h
  cases hlk : wb.sheets.lookup sheet with
  | none => rw [hlk] at h; exact absurd h (by simp)
  | some ws =>
    rw [hlk] at h
    cases hpc : parseStartCell cell with
    | none => rw [hpc] at h; exact absurd h (by simp)
    | some p =>
      rw [hpc] at h
      have hl : l = scanLoop ws p.1 (num_to_col (col_to_num p.1 + 1))
          (num_to_col (col_to_num p.1 + 2)) p.2 2000 p.2 0 [] := by
        cases p; injection h with h; exact h.symm
      subst hl
      have := scanLoop_inv ws p.1 (num_to_col (col_to_num p.1 + 1))
        (num_to_col (col_to_num p.1 + 2)) p.2 2000 p.2 0 []
        (List.Pairwise.nil) (by simp) (by simp) (fun _ => by omega)
        (fun hx => absurd rfl hx) (le_refl p.2)
      exact ⟨fun r hr => ⟨(this.2 r hr).2.2.1, (this.2 r hr).2.2.2⟩, this.1⟩

/-- C10 witness: the invariants at the concrete example scan. -/
theorem C10_row_invariants_witness :
    (∀ r ∈ [(⟨"Name1", "10", "cm", 5⟩ : RangeRow), ⟨"Name2", "20", "", 6⟩],
      r.name ≠ "" ∧ ' ' ∉ r.name.data) ∧
    ([(⟨"Name1", "10", "cm", 5⟩ : RangeRow), ⟨"Name2", "20", "", 6⟩].Pairwise
      (fun a b => a.row < b.row)) :=
  C10_row_invariants exWb "S" "A5" _ rfl

/-- C9: update_docx_variables raises FileNotFoundError for a missing path,
and ValueError for an existing path whose lowercased name does not end in
.docx, in both cases before creating any backup and before touching the
target: the returned filesystem is the input one unchanged. -/
theorem C9_validation_before_mutation :
    ∀ (fs : FileSys) (path : String) (updates : List (String × String))
      (backup : Bool) (now : ℕ),
      (fs path = Option.none →
        update_docx_variables fs path updates backup now = (fs, .error .fileNotFound)) ∧
      (∀ f, fs path = some f →
        ¬ ((pyLower path).data.reverse.take 5 = ".docx".data.reverse) →
        update_docx_variables fs path updates backup now = (fs, .error .valueError)) := by
  intro fs path updates backup now
  constructor
  · intro h
    simp [update_docx_variables, h]
  · intro f hf hne
    simp only [update_docx_variables, hf]
    rw [if_neg hne]

/-- C9 witness: the two error behaviors at concrete filesystems. -/
theorem C9_validation_before_mutation_witness :
    update_docx_variables (fun _ => Option.none) "a.docx" [] true 0 =
      ((fun _ => Option.none), .error .fileNotFound) ∧
    update_docx_variables (fun p => if p = "a.txt" then some [] else Option.none) "a.txt" [] true 0 =
      ((fun p => if p = "a.txt" then some [] else Option.none), .error .valueError) :=
  ⟨(C9_validation_before_mutation (fun _ => Option.none) "a.docx" [] true 0).1 rfl,
   (C9_validation_before_mutation _ "a.txt" [] true 0).2 [] rfl (by decide)⟩

/-- Appending entries one by one into an open archive. -/
lemma run_repack_writes (l : List ZipEntry) :
    ∀ st : List ZipEntry,
      run_repack (some st) (l.map RepackStep.writeEntry) = some (st ++ l) := by
  induction l with
  | nil => intro st; simp [run_repack]
  | cons e t ih =>
    intro st
    simp only [List.map_cons, run_repack, List.foldl_cons]
    have := ih (st ++ [e])
    simp [run_repack] at this
    simpa using this

/-- C1 counterexample: a commit that fails immediately after the first
repack step (the os.remove of lines 143-144) leaves no file at the target
path, so the original file at the path is not preserved. -/
theorem C1_counterexample :
    run_repack (some [⟨"word/document.xml", .blob [1], .deflated, 0⟩])
        ((repack_steps [] [⟨"word/document.xml", .blob [2], .deflated, 0⟩] 7).take 1) =
      Option.none ∧
    (Option.none : Option (List ZipEntry)) ≠
      some [⟨"word/document.xml", .blob [1], .deflated, 0⟩] :=
  ⟨rfl, fun h => Option.noConfusion h⟩

/-- C1 (amended): _repack_docx removes the previous file at the path before
writing the new archive, not after: a full run replaces the path with the
repacked entries, while stopping after the first step leaves no file at the
path, and stopping after any later prefix leaves a partial new archive
(never the original) visible at the path. -/
theorem C1_remove_before_repack :
    ∀ (vars : List (String × String)) (orig es : List ZipEntry) (now : ℕ),
      run_repack (some orig) (repack_steps vars es now) =
        some (es.map (repackEntry vars now)) ∧
      run_repack (some orig) ((repack_steps vars es now).take 1) = Option.none ∧
      ∀ k, run_repack (some orig) ((repack_steps vars es now).take (k + 2)) =
        some ((es.map (repackEntry vars now)).take k) := by
  intro vars orig es now
  refine ⟨?_, rfl, ?_⟩
  · show run_repack (some orig)
      (.removeOld :: .createNew :: (es.map fun e => .writeEntry (repackEntry vars now e))) = _
    have h1 : (es.map fun e => RepackStep.writeEntry (repackEntry vars now e)) =
        (es.map (repackEntry vars now)).map RepackStep.writeEntry := by
      rw [List.map_map]; rfl
    simp only [run_repack, List.foldl_cons]
    rw [show repack_apply (repack_apply (some orig) .removeOld) .createNew = some [] from rfl]
    have := run_repack_writes (es.map (repackEntry vars now)) []
    rw [h1]
    simpa [run_repack] using this
  · intro k
    have hsteps : (repack_steps vars es now).take (k + 2) =
        RepackStep.removeOld :: .createNew ::
          (((es.map (repackEntry vars now)).take k).map RepackStep.writeEntry) := by
      rw [repack_steps, List.take_succ_cons, List.take_succ_cons]
      have : (es.map fun e => RepackStep.writeEntry (repackEntry vars now e)).take k =
          ((es.map (repackEntry vars now)).map RepackStep.writeEntry).take k := by
        rw [List.map_map]; rfl
      rw [this, ← List.map_take]
    rw [hsteps]
    simp only [run_repack, List.foldl_cons]
    rw [show repack_apply (repack_apply (some orig) .removeOld) .createNew = some [] from rfl]
    have := run_repack_writes ((es.map (repackEntry vars now)).take k) []
    simpa [run_repack] using this

mutual
/-- The simple-field pass with an empty update map is the identity. -/
theorem upd_simple_go_nil (x : Xml) : upd_simple_go [] Option.none x = x := by
  cases x with
  | elem tag attrs text ch =>
    rw [upd_simple_go]
    have h1 : simpleText Option.none tag text = text := by
      rw [simpleText]; split
      · rfl
      · rfl
    have h2 : simplePending [] Option.none tag attrs = Option.none := by
      rw [simplePending]; split
      · split
        · rfl
        · rfl
      · rfl
    rw [h1, h2, upd_simple_list_nil ch]

/-- The simple-field pass with an empty update map on a sibling list. -/
theorem upd_simple_list_nil (xs : List Xml) : upd_simple_list [] Option.none xs = xs := by
  cases xs with
  | nil => rfl
  | cons x t => rw [upd_simple_list, upd_simple_go_nil x, upd_simple_list_nil t]
end

/-- The complex-field step with an empty update map never changes a text. -/
lemma fld_step_nil_text (s : FState) (tag : String) (attrs : List (String × String))
    (text : Option String) : (fld_step [] s tag attrs text).2 = text := by
  rw [fld_step]
  by_cases h1 : tag = "fldChar"
  · rw [if_pos h1]
    dsimp only
    split
    · rfl
    · split
      · rfl
      · split <;> rfl
  · rw [if_neg h1]
    by_cases h2 : tag = "instrText" ∧ s.in_field = true
    · rw [if_pos h2]
      split <;> rfl
    · rw [if_neg h2]
      by_cases h3 : tag = "t" ∧ s.in_field = true ∧ s.after_sep = true
      · rw [if_pos h3]
        cases hcur : s.cur with
        | none => rfl
        | some nm =>
          dsimp only
          by_cases h4 : nm ≠ ""
          · rw [if_pos h4]
            rfl
          · rw [if_neg h4]
      · rw [if_neg h3]

mutual
/-- The complex-field pass with an empty update map outputs the tree
unchanged (while still threading the state machine). -/
theorem fld_scan_nil (s : FState) (x : Xml) : (fld_scan [] s x).2 = x := by
  cases x with
  | elem tag attrs text ch =>
    rw [fld_scan]
    simp only []
    rw [fld_step_nil_text, fld_scan_list_nil]

/-- The complex-field pass with an empty update map on a sibling list. -/
theorem fld_scan_list_nil (s : FState) (xs : List Xml) : (fld_scan_list [] s xs).2 = xs := by
  cases xs with
  | nil => rfl
  | cons x t =>
    rw [fld_scan_list]
    simp only []
    rw [fld_scan_nil, fld_scan_list_nil]
end

/-- The whole document pass with an empty update map is the identity. -/
lemma update_document_xml_nil (x : Xml) : update_document_xml [] x = x := by
  rw [update_document_xml, upd_simple, upd_simple_go_nil, fld_scan_nil]

/-- The settings pass with an empty update map is the identity. -/
lemma upd_settings_nil (s : List DocVar) : upd_settings [] s = s := by
  rw [upd_settings]
  induction s with
  | nil => rfl
  | cons d t ih => simp [List.lookup, ih]

/-- C4 counterexample: an archive holding one stored (uncompressed) entry is
not byte-identical modulo timestamps after an empty-map update: the entry
is rewritten deflated. -/
theorem C4_counterexample :
    ¬ eqModTimestamps
        (update_docx_archive [] [⟨"word/media/img.bin", .blob [0], .stored, 3⟩] 7)
        [⟨"word/media/img.bin", .blob [0], .stored, 3⟩] := by
  intro h
  simp [eqModTimestamps, update_docx_archive, repackEntry, patchEntryContent] at h

/-- C4 (amended): with an empty update map every entry keeps its path and
its (uncompressed) content — the settings and document transforms are the
identity — but the archive is still fully repacked: every entry comes out
deflated with the repack timestamp, so byte-identity modulo timestamps can
fail (for instance on a stored entry). -/
theorem C4_empty_update_preserves_contents :
    ∀ (es : List ZipEntry) (now : ℕ),
      (update_docx_archive [] es now).map (fun e => (e.ename, e.content)) =
        es.map (fun e => (e.ename, e.content)) ∧
      ∀ e ∈ update_docx_archive [] es now, e.method = ZipMethod.deflated ∧ e.mtime = now := by
  intro es now
  constructor
  · rw [update_docx_archive, List.map_map]
    apply List.map_congr_left
    intro e _
    show ((repackEntry [] now e).ename, (repackEntry [] now e).content) = (e.ename, e.content)
    cases hc : e.content with
    | settingsPart dvs =>
      simp [repackEntry, patchEntryContent, hc, upd_settings_nil]
    | documentPart x =>
      simp [repackEntry, patchEntryContent, hc, update_document_xml_nil]
    | blob bs =>
      simp [repackEntry, patchEntryContent, hc]
  · intro e he
    rw [update_docx_archive] at he
    rcases List.mem_map.mp he with ⟨a, _, ha⟩
    rw [← ha]
    exact ⟨rfl, rfl⟩

/-- C4 witness: content preservation and forced re-deflation at a concrete
one-entry archive. -/
theorem C4_empty_update_preserves_contents_witness :
    (update_docx_archive [] [⟨"word/media/img.bin", .blob [0], .stored, 3⟩] 7).map
        (fun e => (e.ename, e.content)) =
      [(⟨"word/media/img.bin", .blob [0], .stored, 3⟩ : ZipEntry)].map
        (fun e => (e.ename, e.content)) ∧
    (repackEntry [] 7 ⟨"word/media/img.bin", .blob [0], .stored, 3⟩).method =
      ZipMethod.deflated ∧
    (repackEntry [] 7 ⟨"word/media/img.bin", .blob [0], .stored, 3⟩).mtime = 7 :=
  ⟨(C4_empty_update_preserves_contents [⟨"word/media/img.bin", .blob [0], .stored, 3⟩] 7).1,
   (C4_empty_update_preserves_contents [⟨"word/media/img.bin", .blob [0], .stored, 3⟩] 7).2
     (repackEntry [] 7 ⟨"word/media/img.bin", .blob [0], .stored, 3⟩)
     (List.mem_cons_self _ _)⟩

/-- Membership in the staleness fold. -/
lemma stale_foldl_mem (doc : List (String × String)) :
    ∀ (db : List (String × String)) (acc : List (String × String × String))
      (x : String × String × String),
      x ∈ db.foldl
        (fun stale nv =>
          match get_doc_variable_value doc nv.1 with
          | some doc_value =>
            if doc_value ≠ nv.2 then stale ++ [(nv.1, doc_value, nv.2)] else stale
          | Option.none => stale) acc ↔
      x ∈ acc ∨ ∃ n d, (n, d) ∈ db ∧ ∃ o, get_doc_variable_value doc n = some o ∧ o ≠ d ∧
        x = (n, o, d) := by
  intro db
  induction db with
  | nil => intro acc x; simp
  | cons nv t ih =>
    intro acc x
    rw [List.foldl_cons, ih]
    cases hg : get_doc_variable_value doc nv.1 with
    | none =>
      simp only []
      constructor
      · rintro (hx | hx)
        · exact Or.inl hx
        · rcases hx with ⟨n, d, hnd, o, ho, hod, hxe⟩
          exact Or.inr ⟨n, d, List.mem_cons_of_mem _ hnd, o, ho, hod, hxe⟩
      · rintro (hx | ⟨n, d, hnd, o, ho, hod, hxe⟩)
        · exact Or.inl hx
        · rcases List.mem_cons.mp hnd with hnd | hnd
          · exfalso
            have h1 : n = nv.1 := by rw [← hnd]
            rw [h1, hg] at ho
            exact Option.noConfusion ho
          · exact Or.inr ⟨n, d, hnd, o, ho, hod, hxe⟩
    | some o0 =>
      by_cases hne : o0 ≠ nv.2
      · simp only [if_pos hne]
        constructor
        · rintro (hx | hx)
          · rcases List.mem_append.mp hx with hx | hx
            · exact Or.inl hx
            · rw [List.mem_singleton] at hx
              exact Or.inr ⟨nv.1, nv.2, List.mem_cons_self _ _, o0, hg, hne, hx⟩
          · rcases hx with ⟨n, d, hnd, o, ho, hod, hxe⟩
            exact Or.inr ⟨n, d, List.mem_cons_of_mem _ hnd, o, ho, hod, hxe⟩
        · rintro (hx | ⟨n, d, hnd, o, ho, hod, hxe⟩)
          · exact Or.inl (List.mem_append.mpr (Or.inl hx))
          · rcases List.mem_cons.mp hnd with hnd | hnd
            · have h1 : n = nv.1 := by rw [← hnd]
              have h2 : d = nv.2 := by rw [← hnd]
              rw [h1, hg] at ho
              have ho' : o = o0 := (Option.some.injEq _ _).mp ho.symm
              exact Or.inl (List.mem_append.mpr (Or.inr (by
                rw [List.mem_singleton, hxe, h1, h2, ho'])))
            · exact Or.inr ⟨n, d, hnd, o, ho, hod, hxe⟩
      · simp only [if_neg hne]
        push_neg at hne
        constructor
        · rintro (hx | hx)
          · exact Or.inl hx
          · rcases hx with ⟨n, d, hnd, o, ho, hod, hxe⟩
            exact Or.inr ⟨n, d, List.mem_cons_of_mem _ hnd, o, ho, hod, hxe⟩
        · rintro (hx | ⟨n, d, hnd, o, ho, hod, hxe⟩)
          · exact Or.inl hx
          · rcases List.mem_cons.mp hnd with hnd | hnd
            · exfalso
              have h1 : n = nv.1 := by rw [← hnd]
              have h2 : d = nv.2 := by rw [← hnd]
              rw [h1, hg] at ho
              have ho' : o = o0 := (Option.some.injEq _ _).mp ho.symm
              rw [ho', h2] at hod
              exact hod hne
            · exact Or.inr ⟨n, d, hnd, o, ho, hod, hxe⟩

/-- C3 counterexample: a name present in both maps with differing values
(document value empty, desired value "1") yields no staleness entry — the
transport maps an empty reported value to absent — contradicting the claim
that the result contains exactly every differing name present in both. -/
theorem C3_counterexample :
    get_stale_variables true [("A", "")] [("A", "1")] = [] ∧
    get_stale_variables true [("A", "")] [("A", "1")] ≠ [("A", "", "1")] ∧
    ("" : String) ≠ "1" :=
  ⟨rfl, by decide, by decide⟩

/-- C3 (amended): with an active document, the staleness result contains
(n, (o, d)) exactly when n maps to d in the desired map and the document
reports the value o for n — the stored value stripped of surrounding
whitespace, a name reporting empty counting as absent — with o different
from d; names absent from the desired map are never proposed; the concrete
example from the spec holds as stated. -/
theorem C3_staleness_characterization :
    (∀ (doc db : List (String × String)) (n o d : String),
      (n, o, d) ∈ get_stale_variables true doc db ↔
        (n, d) ∈ db ∧ get_doc_variable_value doc n = some o ∧ o ≠ d) ∧
    get_stale_variables true [("A", "1"), ("B", "2")] [("A", "1"), ("B", "3"), ("C", "9")] =
      [("B", "2", "3")] := by
  constructor
  · intro doc db n o d
    rw [get_stale_variables, if_neg (fun h => (Bool.noConfusion h : False))]
    rw [stale_foldl_mem]
    constructor
    · rintro (hx | ⟨n1, d1, hnd, o1, ho, hod, hxe⟩)
      · exact absurd hx (List.not_mem_nil _)
      · obtain ⟨rfl, rfl, rfl⟩ : n = n1 ∧ o = o1 ∧ d = d1 := by
          simpa [Prod.ext_iff] using hxe
        exact ⟨hnd, ho, hod⟩
    · rintro ⟨hnd, ho, hod⟩
      exact Or.inr ⟨n, d, hnd, o, ho, hod, rfl⟩
  · rfl

/-- Taking while over an append whose left part fully satisfies p. -/
lemma takeWhile_append_all (p : Char → Bool) (l1 l2 : List Char)
    (h : ∀ c ∈ l1, p c = true) : (l1 ++ l2).takeWhile p = l1 ++ l2.takeWhile p := by
  induction l1 with
  | nil => simp
  | cons a t ih =>
    rw [List.cons_append, List.takeWhile_cons_of_pos (h a (List.mem_cons_self a t)),
      ih fun c hc => h c (List.mem_cons_of_mem a hc), List.cons_append]

/-- Dropping while over an append whose left part fully satisfies p. -/
lemma dropWhile_append_all (p : Char → Bool) (l1 l2 : List Char)
    (h : ∀ c ∈ l1, p c = true) : (l1 ++ l2).dropWhile p = l2.dropWhile p := by
  induction l1 with
  | nil => simp
  | cons a t ih =>
    rw [List.cons_append, List.dropWhile_cons_of_pos (h a (List.mem_cons_self a t)),
      ih fun c hc => h c (List.mem_cons_of_mem a hc)]

/-- A whitespace character is not the letter D. -/
lemma space_ne_D (c : Char) (h : isPySpace c = true) : c ≠ 'D' := by
  intro hc
  rw [hc] at h
  exact absurd h (by decide)

/-- The regex cannot match at a position holding anything but the letter D. -/
lemma matchAt_cons_nonD (c : Char) (l : List Char) (hc : c ≠ 'D') :
    matchAt (c :: l) = Option.none := by
  rw [matchAt, if_neg]
  intro h
  have h2 : c :: List.take 10 l = "DOCVARIABLE".data := h
  have h3 : "DOCVARIABLE".data = 'D' :: "OCVARIABLE".data := rfl
  rw [h3] at h2
  injection h2 with h4 _
  exact hc h4

/-- The search skips a leading character that cannot start the keyword. -/
lemma searchDocvar_cons_space (c : Char) (l : List Char) (hc : isPySpace c = true) :
    searchDocvar (c :: l) = searchDocvar l := by
  rw [searchDocvar, matchAt_cons_nonD c l (space_ne_D c hc)]

/-- The regex match at the keyword position captures exactly the token. -/
lemma matchAt_keyword (w t r : List Char) (hw1 : w ≠ []) (hw : ∀ c ∈ w, isPySpace c = true)
    (ht1 : t ≠ []) (ht : ∀ c ∈ t, isPySpace c = false)
    (hr : r = [] ∨ ∃ c rs, r = c :: rs ∧ isPySpace c = true) :
    matchAt ("DOCVARIABLE".data ++ (w ++ (t ++ r))) = some t := by
  rw [matchAt, if_pos (List.take_left' (by decide)), List.drop_left' (by decide)]
  cases w with
  | nil => exact absurd rfl hw1
  | cons c cs =>
    rw [List.cons_append]
    dsimp only
    rw [if_pos (hw c (List.mem_cons_self c cs))]
    have hdrop : (cs ++ (t ++ r)).dropWhile isPySpace = t ++ r := by
      rw [dropWhile_append_all isPySpace cs (t ++ r)
          fun d hd => hw d (List.mem_cons_of_mem c hd)]
      cases t with
      | nil => exact absurd rfl ht1
      | cons d ds =>
        rw [List.cons_append]
        exact List.dropWhile_cons_of_neg (by
          rw [ht d (List.mem_cons_self d ds)]; exact Bool.false_ne_true)
    have htake : (t ++ r).takeWhile (fun d => !isPySpace d) = t := by
      rw [takeWhile_append_all _ t r (by intro d hd; rw [ht d hd]; rfl)]
      rcases hr with hr | ⟨c0, rs, hrc, hc0⟩
      · rw [hr]; simp
      · rw [hrc, List.takeWhile_cons_of_neg (by rw [hc0]; exact (by decide)),
          List.append_nil]
    rw [hdrop, htake, if_neg (by simpa using ht1)]

/-- The search over whitespace, keyword, whitespace, token, rest. -/
lemma searchDocvar_keyword (w0 w t r : List Char)
    (hw0 : ∀ c ∈ w0, isPySpace c = true)
    (hw1 : w ≠ []) (hw : ∀ c ∈ w, isPySpace c = true)
    (ht1 : t ≠ []) (ht : ∀ c ∈ t, isPySpace c = false)
    (hr : r = [] ∨ ∃ c rs, r = c :: rs ∧ isPySpace c = true) :
    searchDocvar (w0 ++ ("DOCVARIABLE".data ++ (w ++ (t ++ r)))) = some t := by
  induction w0 with
  | nil =>
    rw [List.nil_append]
    have hcons : "DOCVARIABLE".data ++ (w ++ (t ++ r)) =
        'D' :: ("OCVARIABLE".data ++ (w ++ (t ++ r))) := rfl
    rw [hcons, searchDocvar, ← hcons, matchAt_keyword w t r hw1 hw ht1 ht hr]
  | cons c cs ih =>
    rw [List.cons_append,
      searchDocvar_cons_space c _ (hw0 c (List.mem_cons_self c cs)),
      ih fun d hd => hw0 d (List.mem_cons_of_mem c hd)]

/-- A string differing from the empty string has a nonempty character list. -/
lemma data_ne_nil (s : String) (h : s ≠ "") : s.data ≠ [] := by
  intro hc
  apply h
  cases s with
  | mk l => cases hc; rfl

/-- C7: for every instruction made of optional leading whitespace, the
DOCVARIABLE keyword, whitespace, a token, and a trailing rest that is empty
or starts with whitespace (covering any trailing switches), the variable
name extracted by the patch engine — extract_var_name is shared by the
simple-field and the complex-field pass — is exactly the token with its
surrounding quotation marks stripped; the trailing switches never influence
the result. -/
theorem C7_instruction_name_extraction :
    ∀ (w0 w t r : String),
      (∀ c ∈ w0.data, isPySpace c = true) →
      w ≠ "" → (∀ c ∈ w.data, isPySpace c = true) →
      t ≠ "" → (∀ c ∈ t.data, isPySpace c = false) →
      (r = "" ∨ isPySpace (r.data.headD 'x') = true) →
      extract_var_name (w0 ++ "DOCVARIABLE" ++ w ++ t ++ r) =
        some ((stripQuotesList t.data).asString) := by
  intro w0 w t r hw0 hw1 hw ht1 ht hr
  have hdata : (w0 ++ "DOCVARIABLE" ++ w ++ t ++ r).data =
      w0.data ++ ("DOCVARIABLE".data ++ (w.data ++ (t.data ++ r.data))) := by
    simp [String.data_append]
  have hr2 : r.data = [] ∨ ∃ c rs, r.data = c :: rs ∧ isPySpace c = true := by
    rcases hr with hr | hr
    · exact Or.inl (by rw [hr])
    · cases hrd : r.data with
      | nil => rw [hrd] at hr; exact absurd hr (by decide)
      | cons c rs =>
        rw [hrd] at hr
        exact Or.inr ⟨c, rs, rfl, by simpa using hr⟩
  rw [extract_var_name, hdata,
    searchDocvar_keyword w0.data w.data t.data r.data hw0
      (data_ne_nil w hw1) hw (data_ne_nil t ht1) ht hr2]
  rfl

/-- C7 witness: a quoted name followed by a formatting switch. -/
theorem C7_instruction_name_extraction_witness :
    extract_var_name (" " ++ "DOCVARIABLE" ++ " " ++ "\"MyVar\"" ++ " \\* MERGEFORMAT") =
      some "MyVar" := by
  rw [C7_instruction_name_extraction " " " " "\"MyVar\"" " \\* MERGEFORMAT"
    (by decide) (by decide) (by decide) (by decide) (by decide) (Or.inr (by decide))]
  rfl

/-- Quote stripping is the identity on quote-free character lists. -/
lemma stripQuotesList_id (l : List Char) (h : ∀ c ∈ l, c ≠ '"') : stripQuotesList l = l := by
  rw [stripQuotesList]
  have h1 : l.dropWhile (fun c => c == '"') = l := by
    cases l with
    | nil => rfl
    | cons a t => exact List.dropWhile_cons_of_neg (by simp [h a (List.mem_cons_self a t)])
  rw [h1]
  have h2 : l.reverse.dropWhile (fun c => c == '"') = l.reverse := by
    cases hr : l.reverse with
    | nil => rfl
    | cons a t =>
      have ha : a ∈ l := by rw [← List.mem_reverse, hr]; exact List.mem_cons_self a t
      exact List.dropWhile_cons_of_neg (by simp [h a ha])
  rw [h2, List.reverse_reverse]

/-- Rebuilding a string from its own characters. -/
lemma asString_data (s : String) : s.data.asString = s := by
  cases s
  rfl

/-- Name extraction on the canonical one-space instruction of the schematic
document: the keyword, one space, then a space-free quote-free name. -/
lemma extract_var_name_canonical (A : String) (hA1 : A ≠ "")
    (hA : ∀ c ∈ A.data, isPySpace c = false) (hAq : ∀ c ∈ A.data, c ≠ '"') :
    extract_var_name ("DOCVARIABLE " ++ A) = some A := by
  rw [extract_var_name]
  have h1 : ("DOCVARIABLE " ++ A).data =
      "DOCVARIABLE".data ++ ([' '] ++ (A.data ++ [])) := by
    have h0 : "DOCVARIABLE ".data = "DOCVARIABLE".data ++ [' '] := rfl
    rw [String.data_append, h0, List.append_assoc, List.append_nil]
  have h2 := searchDocvar_keyword [] [' '] A.data [] (by simp)
    (by simp) (by intro c hc; rw [List.mem_singleton] at hc; rw [hc]; rfl)
    (data_ne_nil A hA1) hA (Or.inl rfl)
  rw [List.nil_append] at h2
  rw [h1, h2]
  show some ((stripQuotesList A.data).asString) = some A
  rw [stripQuotesList_id A.data hAq, asString_data]

set_option maxRecDepth 10000 in
/-- C2: in the schematic document holding definitions A, B, C, a simple
field displaying A, a complex field displaying B, a simple field displaying
C and two unrelated paragraphs, the update map mapping A and B changes
exactly the definition values of A and B and the display texts of the A and
B fields: the C definition, the C display, and the unrelated paragraphs are
untouched; moreover the settings pass never creates or removes a
definition (the name sequence is preserved for every input). -/
theorem C2_selective_update :
    ∀ (A B C va vb vc da db dc hx hy vx vy : String),
      A ≠ "" → (∀ c ∈ A.data, isPySpace c = false) → (∀ c ∈ A.data, c ≠ '"') →
      B ≠ "" → (∀ c ∈ B.data, isPySpace c = false) → (∀ c ∈ B.data, c ≠ '"') →
      C ≠ "" → (∀ c ∈ C.data, isPySpace c = false) → (∀ c ∈ C.data, c ≠ '"') →
      B ≠ A → C ≠ A → C ≠ B →
      upd_settings [(A, vx), (B, vy)] [⟨A, va⟩, ⟨B, vb⟩, ⟨C, vc⟩] =
        [⟨A, vx⟩, ⟨B, vy⟩, ⟨C, vc⟩] ∧
      update_document_xml [(A, vx), (B, vy)] (sampleBody A B C da db dc hx hy) =
        sampleBody A B C vx vy dc hx hy ∧
      (∀ (vars : List (String × String)) (s : List DocVar),
        (upd_settings vars s).map DocVar.name = s.map DocVar.name) := by
  intro A B C va vb vc da db dc hx hy vx vy
  intro hA1 hA hAq hB1 hB hBq hC1 hC hCq hBA hCA hCB
  have hBAb : (B == A) = false := beq_eq_false_iff_ne.mpr hBA
  have hCAb : (C == A) = false := beq_eq_false_iff_ne.mpr hCA
  have hCBb : (C == B) = false := beq_eq_false_iff_ne.mpr hCB
  have hexA := extract_var_name_canonical A hA1 hA hAq
  have hexB := extract_var_name_canonical B hB1 hB hBq
  have hexC := extract_var_name_canonical C hC1 hC hCq
  have hlA : [(A, vx), (B, vy)].lookup A = some vx := by
    simp [List.lookup]
  have hlB : [(A, vx), (B, vy)].lookup B = some vy := by
    simp [List.lookup, hBAb]
  have hlC : [(A, vx), (B, vy)].lookup C = Option.none := by
    simp [List.lookup, hCAb, hCBb]
  refine ⟨?_, ?_, ?_⟩
  · rw [upd_settings]
    simp only [List.map_cons, List.map_nil, hlA, hlB, hlC]
  · rw [update_document_xml, upd_simple, sampleBody]
    simp [upd_simple_go, upd_simple_list, simpleText, simplePending,
      fld_scan, fld_scan_list, fld_step, fldInit,
      hexA, hexB, hexC, hlA, hlB, hlC, hB1, hBAb,
      show extract_var_name "" = Option.none from rfl]
    rfl
  · intro vars s
    rw [upd_settings, List.map_map]
    apply List.map_congr_left
    intro d _
    cases hld : vars.lookup d.name with
    | none => simp [hld]
    | some v => simp [hld]

/-- C2 witness: the selective update at a concrete document. -/
theorem C2_selective_update_witness :
    upd_settings [("VarA", "x"), ("VarB", "y")]
        [⟨"VarA", "1"⟩, ⟨"VarB", "2"⟩, ⟨"VarC", "3"⟩] =
      [⟨"VarA", "x"⟩, ⟨"VarB", "y"⟩, ⟨"VarC", "3"⟩] ∧
    update_document_xml [("VarA", "x"), ("VarB", "y")]
        (sampleBody "VarA" "VarB" "VarC" "oldA" "oldB" "oldC" "Heading" "Tail") =
      sampleBody "VarA" "VarB" "VarC" "x" "y" "oldC" "Heading" "Tail" ∧
    (∀ (vars : List (String × String)) (s : List DocVar),
      (upd_settings vars s).map DocVar.name = s.map DocVar.name) :=
  C2_selective_update "VarA" "VarB" "VarC" "1" "2" "3" "oldA" "oldB" "oldC"
    "Heading" "Tail" "x" "y"
    (by decide) (by decide) (by decide) (by decide) (by decide) (by decide)
    (by decide) (by decide) (by decide) (by decide) (by decide) (by decide)

/-- Unfolding of the complex-field pass at an element. -/
lemma fld_scan_elem_eq (vars : List (String × String)) (s : FState) (tag : String)
    (attrs : List (String × String)) (text : Option String) (ch : List Xml) :
    fld_scan vars s (.elem tag attrs text ch) =
      ((fld_scan_list vars (fld_step vars s tag attrs text).1 ch).1,
       .elem tag attrs (fld_step vars s tag attrs text).2
         (fld_scan_list vars (fld_step vars s tag attrs text).1 ch).2) := rfl

/-- Unfolding of the complex-field pass at a cons cell. -/
lemma fld_scan_list_cons_eq (vars : List (String × String)) (s : FState) (x : Xml)
    (xs : List Xml) :
    fld_scan_list vars s (x :: xs) =
      ((fld_scan_list vars (fld_scan vars s x).1 xs).1,
       (fld_scan vars s x).2 :: (fld_scan_list vars (fld_scan vars s x).1 xs).2) := rfl

/-- Unfolding of the simple-field pass at an element. -/
lemma upd_simple_go_elem_eq (vars : List (String × String)) (p : Option String)
    (tag : String) (attrs : List (String × String)) (text : Option String) (ch : List Xml) :
    upd_simple_go vars p (.elem tag attrs text ch) =
      .elem tag attrs (simpleText p tag text)
        (upd_simple_list vars (simplePending vars p tag attrs) ch) := by
  rw [upd_simple_go]

/-- Unfolding of the simple-field pass at a cons cell. -/
lemma upd_simple_list_cons_eq (vars : List (String × String)) (p : Option String)
    (x : Xml) (xs : List Xml) :
    upd_simple_list vars p (x :: xs) =
      upd_simple_go vars p x :: upd_simple_list vars p xs := by
  rw [upd_simple_list]

/-- The simple-field text effect is idempotent. -/
lemma simpleText_idem (p : Option String) (tag : String) (text : Option String) :
    simpleText p tag (simpleText p tag text) = simpleText p tag text := by
  by_cases ht : tag = "t"
  · cases p with
    | none => simp [simpleText, ht]
    | some v => simp [simpleText, ht]
  · simp [simpleText, ht]

mutual
/-- The simple-field pass is idempotent, for every pending value. -/
theorem upd_simple_go_idem (vars : List (String × String)) (p : Option String) (x : Xml) :
    upd_simple_go vars p (upd_simple_go vars p x) = upd_simple_go vars p x := by
  cases x with
  | elem tag attrs text ch =>
    rw [upd_simple_go_elem_eq, upd_simple_go_elem_eq, simpleText_idem,
      upd_simple_list_idem]

/-- The simple-field pass on a sibling list is idempotent. -/
theorem upd_simple_list_idem (vars : List (String × String)) (p : Option String)
    (xs : List Xml) :
    upd_simple_list vars p (upd_simple_list vars p xs) = upd_simple_list vars p xs := by
  cases xs with
  | nil => rfl
  | cons x t =>
    rw [upd_simple_list_cons_eq, upd_simple_list_cons_eq, upd_simple_go_idem,
      upd_simple_list_idem]
end

/-- Characterization of the complex-field step at a text run. -/
lemma fld_step_t_eq (vars : List (String × String)) (s : FState)
    (attrs : List (String × String)) (text : Option String) :
    fld_step vars s "t" attrs text =
      (s, if s.in_field = true ∧ s.after_sep = true then
            match s.cur with
            | some nm =>
              if nm ≠ "" then
                match vars.lookup nm with
                | some v => some v
                | Option.none => text
              else text
            | Option.none => text
          else text) := by
  rw [fld_step]
  rw [if_neg (by decide : ¬("t" : String) = "fldChar")]
  rw [if_neg (fun hc => absurd hc.1 (by decide))]
  by_cases h : s.in_field = true ∧ s.after_sep = true
  · rw [if_pos ⟨rfl, h.1, h.2⟩, if_pos h]
    cases hcur : s.cur with
    | none => rfl
    | some nm =>
      dsimp only
      by_cases h4 : nm ≠ ""
      · rw [if_pos h4, if_pos h4]
        cases hl : vars.lookup nm <;> rfl
      · rw [if_neg h4, if_neg h4]
  · rw [if_neg (fun hc => h ⟨hc.2.1, hc.2.2⟩), if_neg h]

/-- The complex-field step changes only texts of t elements. -/
lemma fld_step_text_ne_t (vars : List (String × String)) (s : FState) (tag : String)
    (attrs : List (String × String)) (text : Option String) (h : tag ≠ "t") :
    (fld_step vars s tag attrs text).2 = text := by
  rw [fld_step]
  by_cases h1 : tag = "fldChar"
  · rw [if_pos h1]
    dsimp only
    split
    · rfl
    · split
      · rfl
      · split <;> rfl
  · rw [if_neg h1]
    by_cases h2 : tag = "instrText" ∧ s.in_field = true
    · rw [if_pos h2]
      split <;> rfl
    · rw [if_neg h2, if_neg (fun hc => h hc.1)]

/-- At a text run the complex-field step either always writes one fixed
value or never changes the text. -/
lemma fld_step_t_write (vars : List (String × String)) (s : FState)
    (attrs : List (String × String)) :
    (∃ v, ∀ y, (fld_step vars s "t" attrs y).2 = some v) ∨
      (∀ y, (fld_step vars s "t" attrs y).2 = y) := by
  by_cases h : s.in_field = true ∧ s.after_sep = true
  · cases hcur : s.cur with
    | none => exact Or.inr fun y => by rw [fld_step_t_eq]; simp [h, hcur]
    | some nm =>
      by_cases h4 : nm ≠ ""
      · cases hl : vars.lookup nm with
        | none => exact Or.inr fun y => by rw [fld_step_t_eq]; simp [h, hcur, h4, hl]
        | some v =>
          exact Or.inl ⟨v, fun y => by rw [fld_step_t_eq]; simp [h, hcur, h4, hl]⟩
      · exact Or.inr fun y => by rw [fld_step_t_eq]; simp [h, hcur, h4]
  · exact Or.inr fun y => by rw [fld_step_t_eq]; simp [h]

/-- The state transition of the complex-field step is blind to the text
rewrite done by the simple-field pass. -/
lemma fld_step_state_sT (vars : List (String × String)) (s : FState) (tag : String)
    (attrs : List (String × String)) (text : Option String) (p : Option String) :
    (fld_step vars s tag attrs (simpleText p tag text)).1 =
      (fld_step vars s tag attrs text).1 := by
  by_cases ht : tag = "t"
  · subst ht
    rw [fld_step_t_eq, fld_step_t_eq]
  · simp only [simpleText]
    rw [if_neg ht]

/-- Re-running the complex-field step after a simple-pass overwrite of its
own output agrees with running it on the simple-pass overwrite alone. -/
lemma fld_step_sT_idem (vars : List (String × String)) (s : FState) (tag : String)
    (attrs : List (String × String)) (text : Option String) (p : Option String) :
    fld_step vars s tag attrs (simpleText p tag (fld_step vars s tag attrs text).2) =
      fld_step vars s tag attrs (simpleText p tag text) := by
  by_cases ht : tag = "t"
  · subst ht
    cases p with
    | some v =>
      have hsv : ∀ y, simpleText (some v) "t" y = some v := fun y => by simp [simpleText]
      rw [hsv, hsv]
    | none =>
      have hid : ∀ y, simpleText Option.none "t" y = y := fun y => by simp [simpleText]
      rw [hid, hid]
      rcases fld_step_t_write vars s attrs with ⟨v, hv⟩ | hid2
      · refine Prod.ext ?_ ?_
        · rw [fld_step_t_eq, fld_step_t_eq]
        · rw [hv, hv]
      · rw [hid2]
  · simp only [simpleText]
    rw [if_neg ht, if_neg ht, fld_step_text_ne_t vars s tag attrs text ht]

mutual
/-- The final state of the complex-field scan is invariant under the
simple-field pass (which only rewrites texts of t elements, never read by
the state machine). -/
theorem fld_scan_state_upd (vars : List (String × String)) :
    ∀ (x : Xml) (s : FState) (p : Option String),
      (fld_scan vars s (upd_simple_go vars p x)).1 = (fld_scan vars s x).1
  | .elem tag attrs text ch, s, p => by
    rw [upd_simple_go_elem_eq, fld_scan_elem_eq, fld_scan_elem_eq,
      fld_step_state_sT, fld_scan_list_state_upd vars ch _ _]

/-- List version of the state invariance. -/
theorem fld_scan_list_state_upd (vars : List (String × String)) :
    ∀ (xs : List Xml) (s : FState) (p : Option String),
      (fld_scan_list vars s (upd_simple_list vars p xs)).1 = (fld_scan_list vars s xs).1
  | [], _, _ => rfl
  | x :: t, s, p => by
    rw [upd_simple_list_cons_eq, fld_scan_list_cons_eq, fld_scan_list_cons_eq,
      fld_scan_state_upd vars x s p, fld_scan_list_state_upd vars t _ _]
end

mutual
/-- Re-running the whole pipeline on its own output: the complex-field scan
of the simple-pass applied to an already-scanned tree equals the scan of
the simple-pass applied to the original tree. -/
theorem fld_scan_upd_idem (vars : List (String × String)) :
    ∀ (x : Xml) (s : FState) (p : Option String),
      fld_scan vars s (upd_simple_go vars p ((fld_scan vars s x).2)) =
        fld_scan vars s (upd_simple_go vars p x)
  | .elem tag attrs text ch, s, p => by
    rw [fld_scan_elem_eq]
    dsimp only
    rw [upd_simple_go_elem_eq, upd_simple_go_elem_eq,
      fld_scan_elem_eq, fld_scan_elem_eq, fld_step_sT_idem, fld_step_state_sT,
      fld_scan_list_upd_idem vars ch _ _]

/-- List version of the pipeline idempotence. -/
theorem fld_scan_list_upd_idem (vars : List (String × String)) :
    ∀ (xs : List Xml) (s : FState) (p : Option String),
      fld_scan_list vars s (upd_simple_list vars p ((fld_scan_list vars s xs).2)) =
        fld_scan_list vars s (upd_simple_list vars p xs)
  | [], _, _ => rfl
  | x :: t, s, p => by
    rw [fld_scan_list_cons_eq]
    dsimp only
    rw [upd_simple_list_cons_eq, upd_simple_list_cons_eq,
      fld_scan_list_cons_eq, fld_scan_list_cons_eq,
      fld_scan_upd_idem vars x s p, fld_scan_state_upd vars x s p,
      fld_scan_list_upd_idem vars t _ _]
end

/-- The document pass is idempotent. -/
lemma update_document_xml_idem (vars : List (String × String)) (x : Xml) :
    update_document_xml vars (update_document_xml vars x) = update_document_xml vars x := by
  simp only [update_document_xml, upd_simple]
  rw [fld_scan_upd_idem vars (upd_simple_go vars Option.none x) fldInit Option.none,
    upd_simple_go_idem]

/-- The settings pass is idempotent. -/
lemma upd_settings_idem (vars : List (String × String)) (d : List DocVar) :
    upd_settings vars (upd_settings vars d) = upd_settings vars d := by
  simp only [upd_settings, List.map_map]
  apply List.map_congr_left
  intro d0 _
  simp only [Function.comp]
  cases hl : vars.lookup d0.name with
  | none => simp [hl]
  | some v => simp [hl]

/-- Patching an entry content twice with the same map equals patching once. -/
lemma patchEntryContent_idem (vars : List (String × String)) (c : EntryContent) :
    patchEntryContent vars (patchEntryContent vars c) = patchEntryContent vars c := by
  cases c with
  | settingsPart dvs => simp [patchEntryContent, upd_settings_idem]
  | documentPart x => simp [patchEntryContent, update_document_xml_idem]
  | blob bs => rfl

/-- C5: applying the same update map twice yields the same final document
as applying it once: the settings pass and the document pass are idempotent,
and at the archive level the file after two applications agrees with the
file after one on every entry path, content and compression method (only
repack timestamps differ, and they also agree when the repack times do). -/
theorem C5_update_idempotent :
    ∀ (vars : List (String × String)) (d : List DocVar) (x : Xml)
      (es : List ZipEntry) (now now2 : ℕ),
      upd_settings vars (upd_settings vars d) = upd_settings vars d ∧
      update_document_xml vars (update_document_xml vars x) = update_document_xml vars x ∧
      eqModTimestamps (update_docx_archive vars (update_docx_archive vars es now) now2)
        (update_docx_archive vars es now) ∧
      update_docx_archive vars (update_docx_archive vars es now) now =
        update_docx_archive vars es now := by
  intro vars d x es now now2
  refine ⟨upd_settings_idem vars d, update_document_xml_idem vars x, ?_, ?_⟩
  · simp only [eqModTimestamps, update_docx_archive, List.map_map]
    apply List.map_congr_left
    intro e _
    simp [Function.comp, repackEntry, patchEntryContent_idem]
  · simp only [update_docx_archive, List.map_map]
    apply List.map_congr_left
    intro e _
    simp [Function.comp, repackEntry, patchEntryContent_idem]

end Tansu
